import Mathlib

/-!
Verification of the rule-based PDF outline extractor
(`src/extract_outline.py`) against its natural-language specification.

The Python pipeline is shallowly embedded: every stage of
`extract_pdf_outline` is translated into an executable Lean definition.
Real-valued quantities (font sizes, coordinates, scores) are modelled as
exact fractions (`Frac`, an integer numerator with a positive integer
denominator) so that all arithmetic reduces in the kernel; this is the
usual idealisation of the Python floats.  Strings are modelled as Lean
`String`s restricted to the ASCII fragment, which covers every string
classification rule the code uses (`istitle`, `isupper`, `\d`, `\s`,
`split()`, `lower()`).
-/

/-! ## Exact fraction arithmetic

`Frac` is an unreduced fraction with a positive denominator.  Equality of
values is `Frac.eqv` (cross multiplication); the structure equality of two
`Frac`s is representation equality and is never used for numeric claims.
All operations are definable by structural recursion on `Int`, hence they
evaluate by `decide`/`rfl`, unlike `Rat` whose normalisation blocks kernel
reduction. -/

structure Frac where
  num : Int
  den : Int
  dpos : 0 < den

def Frac.ofInt (n : Int) : Frac := ⟨n, 1, Int.zero_lt_one⟩

instance (n : Nat) : OfNat Frac n := ⟨⟨(n : Int), 1, Int.zero_lt_one⟩⟩

def Frac.add (a b : Frac) : Frac :=
  ⟨a.num * b.den + b.num * a.den, a.den * b.den, mul_pos a.dpos b.dpos⟩

def Frac.mul (a b : Frac) : Frac :=
  ⟨a.num * b.num, a.den * b.den, mul_pos a.dpos b.dpos⟩

def Frac.neg (a : Frac) : Frac := ⟨-a.num, a.den, a.dpos⟩

def Frac.sub (a b : Frac) : Frac := a.add b.neg

/-- Division.  Python raises `ZeroDivisionError` on a zero divisor; the
pipeline never divides by zero on the inputs we consider, and the junk
value `0` is returned in that unreachable case. -/
def Frac.div (a b : Frac) : Frac :=
  if h : 0 < b.num then ⟨a.num * b.den, a.den * b.num, mul_pos a.dpos h⟩
  else if h2 : b.num < 0 then
    ⟨-(a.num * b.den), a.den * (-b.num), mul_pos a.dpos (by omega)⟩
  else 0

def Frac.fabs (a : Frac) : Frac := ⟨|a.num|, a.den, a.dpos⟩

/-- Structural (representation) equality is decidable; numeric equality of
values is the separate `Frac.eqv`. -/
instance : DecidableEq Frac := fun a b =>
  decidable_of_iff (a.num = b.num ∧ a.den = b.den)
    (by cases a; cases b; simp)

instance : Add Frac := ⟨Frac.add⟩
instance : Mul Frac := ⟨Frac.mul⟩
instance : Neg Frac := ⟨Frac.neg⟩
instance : Sub Frac := ⟨Frac.sub⟩
instance : Div Frac := ⟨Frac.div⟩

/-- Numeric strict order (cross multiplication; denominators positive). -/
def Frac.lt (a b : Frac) : Prop := a.num * b.den < b.num * a.den

/-- Numeric non-strict order. -/
def Frac.le (a b : Frac) : Prop := a.num * b.den ≤ b.num * a.den

/-- Numeric equality of fraction values. -/
def Frac.eqv (a b : Frac) : Prop := a.num * b.den = b.num * a.den

instance : LT Frac := ⟨Frac.lt⟩
instance : LE Frac := ⟨Frac.le⟩

instance (a b : Frac) : Decidable (a < b) :=
  inferInstanceAs (Decidable (a.num * b.den < b.num * a.den))

instance (a b : Frac) : Decidable (a ≤ b) :=
  inferInstanceAs (Decidable (a.num * b.den ≤ b.num * a.den))

instance (a b : Frac) : Decidable (a.eqv b) :=
  inferInstanceAs (Decidable (a.num * b.den = b.num * a.den))

/-- Python 3 `round` on an exact fraction: nearest integer, ties to even. -/
def pyRound (a : Frac) : Int :=
  let f := a.num.fdiv a.den
  let r2 := 2 * (a.num - f * a.den)
  if r2 < a.den then f
  else if a.den < r2 then f + 1
  else if f % 2 = 0 then f else f + 1

/-! ## Python string helpers (ASCII model) -/

def isPySpace (c : Char) : Bool :=
  c = ' ' || c = Char.ofNat 9 || c = Char.ofNat 10 || c = Char.ofNat 13 ||
  c = Char.ofNat 11 || c = Char.ofNat 12

def isDigitCh (c : Char) : Bool := '0' ≤ c && c ≤ '9'

/-- Number of words of `str.split()`: maximal runs of non-whitespace. -/
def wordCountAux : List Char → Bool → Nat
  | [], _ => 0
  | c :: cs, inw =>
    if isPySpace c then wordCountAux cs false
    else (if inw then 0 else 1) + wordCountAux cs true

def wordCount (s : String) : Nat := wordCountAux s.data false

/-- `re.sub(r'\d+', '#', s)`: replace each maximal digit run by `#`. -/
def normDigitsAux : List Char → Bool → List Char
  | [], _ => []
  | c :: cs, ind =>
    if isDigitCh c then (if ind then [] else ['#']) ++ normDigitsAux cs true
    else c :: normDigitsAux cs false

def normDigits (s : String) : String := ⟨normDigitsAux s.data false⟩

/-- `str.strip()`. -/
def pyStrip (s : String) : String :=
  ⟨((s.data.dropWhile isPySpace).reverse.dropWhile isPySpace).reverse⟩

/-- Substring containment, for `'bold' in font.lower()`. -/
def containsSub (needle : List Char) : List Char → Bool
  | [] => needle.isEmpty
  | c :: cs => needle.isPrefixOf (c :: cs) || containsSub needle cs

def isBoldFont (font : String) : Bool :=
  containsSub "bold".data (font.data.map Char.toLower)

/-- `os.path.basename` for plain POSIX paths: text after the last slash. -/
def basenameAux : List Char → List Char → List Char
  | [], acc => acc.reverse
  | c :: cs, acc => if c = '/' then basenameAux cs [] else basenameAux cs (c :: acc)

def pyBasename (s : String) : String := ⟨basenameAux s.data []⟩

/-! ## Python collection helpers -/

/-- First-occurrence deduplication: the iteration order of a Python `set`
built by successive insertion, and of `dict`/`defaultdict` keys. -/
def dedupKeep {α : Type} [DecidableEq α] (l : List α) : List α :=
  l.foldl (fun acc x => if x ∈ acc then acc else acc ++ [x]) []

def countEq {α : Type} [DecidableEq α] (l : List α) (x : α) : Nat :=
  (l.filter (fun y => decide (y = x))).length

/-- `statistics.mode` (Python ≥ 3.8): the first most-frequent element in
first-occurrence order; `StatisticsError` (here `none`) only on empty
input. -/
def pyMode {α : Type} [DecidableEq α] (l : List α) : Option α :=
  match dedupKeep l with
  | [] => none
  | x :: xs =>
    some (xs.foldl (fun best y => if countEq l best < countEq l y then y else best) x)

/-- Stable insertion of `a` after every element `b` with `lt b a`. -/
def insertAsc {α : Type} (lt : α → α → Bool) (a : α) : List α → List α
  | [] => [a]
  | b :: bs => if lt b a then b :: insertAsc lt a bs else a :: b :: bs

/-- Stable ascending sort (the semantics of Python `sorted`/`list.sort`
for a strict comparison `lt`). -/
def sortAsc {α : Type} (lt : α → α → Bool) : List α → List α
  | [] => []
  | x :: xs => insertAsc lt x (sortAsc lt xs)

def fblt (a b : Frac) : Bool := decide (a < b)

/-- `statistics.median`: middle of the sorted data, or the mean of the two
middle elements for even length.  Total with junk value `0` on the empty
list, on which Python raises; every call in the code is guarded. -/
def pyMedian (l : List Frac) : Frac :=
  let s := sortAsc fblt l
  let n := s.length
  if n % 2 = 1 then s.getD (n / 2) 0
  else if n = 0 then 0
  else (s.getD (n / 2 - 1) 0 + s.getD (n / 2) 0) / 2

/-! ## Data model

Mirrors the dictionaries built by `get_document_structure` and the raw
records the external parser (PyMuPDF) hands it.  Only the fields the
pipeline reads are modelled. -/

structure BBox where
  x0 : Frac
  y0 : Frac
  x1 : Frac
  y1 : Frac
deriving DecidableEq

structure Span where
  text : String
  size : Frac
  font : String
deriving DecidableEq

structure Line where
  text : String
  bbox : BBox
  spans : List Span
deriving DecidableEq

structure Block where
  bbox : BBox
  lines : List Line
deriving DecidableEq

structure Page where
  page_num : Nat
  page_width : Frac
  page_height : Frac
  blocks : List Block
deriving DecidableEq

/-- Raw line as delivered by the external parser (`page.get_text("dict")`):
spans may be empty and the joined text may strip to nothing. -/
structure RawLine where
  bbox : BBox
  spans : List Span

/-- Raw block: `typ` is the PyMuPDF block type, `0` for text blocks. -/
structure RawBlock where
  typ : Nat
  bbox : BBox
  lines : List RawLine

structure RawPage where
  width : Frac
  height : Frac
  blocks : List RawBlock

/-- The Line Identity `(line['text'], tuple(map(round, line['bbox'])))`. -/
structure LineId where
  text : String
  rx0 : Int
  ry0 : Int
  rx1 : Int
  ry1 : Int
deriving DecidableEq

def lineId (l : Line) : LineId :=
  ⟨l.text, pyRound l.bbox.x0, pyRound l.bbox.y0, pyRound l.bbox.x1, pyRound l.bbox.y1⟩

structure OutlineEntry where
  level : String
  text : String
  page : Nat
deriving DecidableEq

structure ExtractResult where
  title : String
  outline : List OutlineEntry
  error : Option String
deriving DecidableEq

structure Config where
  header_threshold : Frac
  footer_threshold : Frac
  min_heading_score : Frac
  font_size_ratio : Frac
  min_body_text_words : Nat
  title_page_limit : Nat

/-- The module-level `CONFIG` dictionary. -/
def CONFIG : Config :=
  { header_threshold := ⟨3, 20, by decide⟩
    footer_threshold := ⟨17, 20, by decide⟩
    min_heading_score := 3
    font_size_ratio := 1
    min_body_text_words := 6
    title_page_limit := 2 }

/-! ## Stage 1: `get_document_structure` (normaliser)

The `fitz.open` call is external; its outcome is modelled as
`Option (List RawPage)` — `none` when the parser cannot open the file,
`some raws` with the raw per-page records otherwise.  The body of the
page loop is translated below. -/

def buildLine (rl : RawLine) : Option Line :=
  match rl.spans with
  | [] => none
  | s :: ss =>
    let t := pyStrip (String.intercalate " " ((s :: ss).map (fun sp => sp.text)))
    if t = "" then none else some ⟨t, rl.bbox, s :: ss⟩

def buildBlock (rb : RawBlock) : Option Block :=
  if rb.typ = 0 then
    match rb.lines.filterMap buildLine with
    | [] => none
    | l :: ls => some ⟨rb.bbox, l :: ls⟩
  else none

def get_document_structure (raws : List RawPage) : List Page :=
  raws.enum.map (fun pr =>
    ⟨pr.1 + 1, pr.2.width, pr.2.height, pr.2.blocks.filterMap buildBlock⟩)

/-! ## Stage 2: `identify_and_filter_content` (noise filter) -/

/-- The `(normalized_text, page_num)` pairs appended into
`potential_hf_lines`, in traversal order: pages after the first, blocks in
the header band (`bbox[3] < height*header_threshold`) or footer band
(`bbox[1] > height*footer_threshold`), lines whose digit-normalised text
has fewer than 8 words. -/
def hf_pairs (d : List Page) (cfg : Config) : List (String × Nat) :=
  (d.drop 1).flatMap (fun p => p.blocks.flatMap (fun b =>
    if b.bbox.y1 < p.page_height * cfg.header_threshold ∨
       b.bbox.y0 > p.page_height * cfg.footer_threshold then
      b.lines.filterMap (fun l =>
        let nt := normDigits l.text
        if wordCount nt < 8 then some (nt, p.page_num) else none)
    else []))

/-- `potential_hf_lines[key]`: the page-number list for one normalised key. -/
def pages_of_key (d : List Page) (cfg : Config) (key : String) : List Nat :=
  (hf_pairs d cfg).filterMap (fun pr => if pr.1 = key then some pr.2 else none)

/-- `len(set(pages)) > 2 or (num_pages > 5 and len(set(pages)) > num_pages*0.5)`. -/
def is_noise_key (d : List Page) (cfg : Config) (key : String) : Prop :=
  let k := (dedupKeep (pages_of_key d cfg key)).length
  2 < k ∨ (5 < d.length ∧ d.length < 2 * k)

instance (d : List Page) (cfg : Config) (key : String) :
    Decidable (is_noise_key d cfg key) :=
  inferInstanceAs (Decidable (_ ∨ _))

def identify_and_filter_content (d : List Page) (cfg : Config) : List LineId :=
  (dedupKeep ((hf_pairs d cfg).map (fun pr => pr.1))).flatMap (fun key =>
    if is_noise_key d cfg key then
      d.flatMap (fun p =>
        if p.page_num ∈ pages_of_key d cfg key then
          p.blocks.flatMap (fun b => b.lines.filterMap (fun l =>
            if normDigits l.text = key then some (lineId l) else none))
        else [])
    else [])

/-! ## Stage 3: `find_title_by_layout` -/

structure TitleCand where
  text : String
  score : Frac
  lines : List Line
deriving DecidableEq

def title_candidates (d : List Page) (ign : List LineId) (cfg : Config) :
    List TitleCand :=
  (d.take cfg.title_page_limit).flatMap (fun p =>
    p.blocks.filterMap (fun b =>
      if b.lines.any (fun l => decide (lineId l ∈ ign)) then none
      else if ¬ (1 ≤ b.lines.length ∧ b.lines.length ≤ 4) ∨
              b.bbox.y0 > p.page_height * ⟨2, 5, by decide⟩ then none
      else
        let btext := String.intercalate " " (b.lines.map (fun l => l.text))
        if btext = "" then none
        else
          let avg : Frac :=
            if b.lines.any (fun l => !l.spans.isEmpty) then
              pyMedian (b.lines.flatMap (fun l => l.spans.map (fun s => s.size)))
            else 0
          let block_center_x := (b.bbox.x0 + b.bbox.x1) / 2
          let page_center_x := p.page_width / 2
          let centering_score : Frac :=
            if page_center_x > 0 then
              (1 - (block_center_x - page_center_x).fabs / page_center_x) * 15
            else 0
          let position_score :=
            (1 - b.bbox.y0 / (p.page_height * ⟨2, 5, by decide⟩)) * 5
          some ⟨btext, avg + centering_score + position_score, b.lines⟩))

/-- Python `max(candidates, key=...)`: the first candidate of maximal
score (later candidates replace the best only when strictly greater). -/
def maxByScore (c : TitleCand) (cs : List TitleCand) : TitleCand :=
  cs.foldl (fun best x => if best.score < x.score then x else best) c

def find_title_by_layout (d : List Page) (ign : List LineId) (cfg : Config) :
    String × List LineId :=
  match title_candidates d ign cfg with
  | [] => ("Untitled Document", [])
  | c :: cs =>
    let best := maxByScore c cs
    (best.text, best.lines.map lineId)

/-! ## Stage 4: body-baseline estimation (inside `extract_pdf_outline`) -/

def body_font_sizes (d : List Page) (cfg : Config) : List Int :=
  d.flatMap (fun p => p.blocks.flatMap (fun b => b.lines.flatMap (fun l =>
    if cfg.min_body_text_words < wordCount l.text ∧
       ¬ l.spans.any (fun sp => isBoldFont sp.font) then
      l.spans.map (fun s => pyRound s.size)
    else [])))

def body_text_size (d : List Page) (cfg : Config) : Frac :=
  match body_font_sizes d cfg with
  | [] => 10
  | z :: zs => pyMedian ((z :: zs).map Frac.ofInt)

/-! ## Stage 5: `get_heading_score` -/

/-- `re.match(r'^\s*•|^\s*\|^\s-|` + "`" + r'', text)`: of the three
alternatives of that regular expression, the middle one
(`^\s*\|^\s-`) can never match, because the mid-pattern `^` would have to
match after the literal `|` consumed a character; what remains is
"optional whitespace then `•`" or "a leading backtick". -/
def starts_bullet (s : String) : Bool :=
  (match s.data.dropWhile isPySpace with
   | c :: _ => c = Char.ofNat 8226
   | [] => false) ||
  (match s.data with
   | c :: _ => c = Char.ofNat 96
   | [] => false)

/-- One alternative of the URL search at the current position: the given
literal followed by at least one non-whitespace character (`\S+`). -/
def afterLiteral (pre : List Char) (t : List Char) : Bool :=
  pre.isPrefixOf t &&
    (match t.drop pre.length with
     | c :: _ => !isPySpace c
     | [] => false)

def hasUrlAt (t : List Char) : Bool :=
  afterLiteral "http://".data t || afterLiteral "https://".data t ||
  afterLiteral "www.".data t

def hasUrl : List Char → Bool
  | [] => false
  | c :: cs => hasUrlAt (c :: cs) || hasUrl cs

/-- `\S+\.git$`: the text ends in ".git" preceded by a non-space char. -/
def ends_git (t : List Char) : Bool :=
  match t.reverse with
  | g :: i :: t2 :: d :: c :: _ =>
    g = 't' && i = 'i' && t2 = 'g' && d = '.' && !isPySpace c
  | _ => false

/-- `re.search(r'https?://\S+|www\.\S+|\S+\.git$', text)`. -/
def url_like (s : String) : Bool := hasUrl s.data || ends_git s.data

def ends_period_comma (s : String) : Bool :=
  match s.data.getLast? with
  | some c => c = '.' || c = ','
  | none => false

def ends_colon (s : String) : Bool :=
  match s.data.getLast? with
  | some c => c = ':'
  | none => false

/-- `re.match(r"^\d+\.\s", text)`. -/
def starts_numbered (s : String) : Bool :=
  match s.data with
  | c :: _ =>
    isDigitCh c &&
      (match s.data.dropWhile isDigitCh with
       | d :: e :: _ => d = '.' && isPySpace e
       | _ => false)
  | [] => false

/-- `str.istitle()` on the ASCII fragment: at least one cased character,
every uppercase letter follows an uncased character, every lowercase
letter follows a cased one.  Fold state: (ok, previous-was-cased,
seen-cased). -/
def pyIsTitle (s : String) : Bool :=
  let r := s.data.foldl (fun (st : Bool × Bool × Bool) c =>
    if c.isUpper then (st.1 && !st.2.1, true, true)
    else if c.isLower then (st.1 && st.2.1, true, true)
    else (st.1, false, st.2.2)) (true, false, false)
  r.1 && r.2.2

/-- `str.isupper()` on the ASCII fragment. -/
def pyIsUpper (s : String) : Bool :=
  s.data.any Char.isUpper && !(s.data.any Char.isLower)

/-- The first hard-rejection group of `get_heading_score`: bullet/backtick
start, URL-like content, more than 15 words, or terminal `.`/`,`. -/
def hard_reject (l : Line) : Bool :=
  starts_bullet l.text || url_like l.text || decide (15 < wordCount l.text) ||
  ends_period_comma l.text

def span_round_sizes (l : Line) : List Int :=
  l.spans.map (fun s => pyRound s.size)

/-- `{round(s['size']) for s in spans}` disagreeing: more than one distinct
rounded span size. -/
def sizes_disagree (l : Line) : Bool :=
  decide (1 < (dedupKeep (span_round_sizes l)).length)

def line_is_bold (l : Line) : Bool := l.spans.any (fun sp => isBoldFont sp.font)

/-- Score accumulation for a line whose unique rounded span size is `z`. -/
def heading_score_accum (l : Line) (b : Block) (z : Int) (body : Frac)
    (cfg : Config) : Frac :=
  let line_size : Frac := Frac.ofInt z
  let is_bold := line_is_bold l
  let s1 : Frac :=
    if line_size > body * cfg.font_size_ratio then (line_size - body) * 3
    else if line_size < body then 0 - (body - line_size)
    else 0
  let s2 := s1 + (if is_bold then ⟨5, 2, by decide⟩ else 0)
  let s3 := s2 + (if starts_numbered l.text then 2 else 0)
  let s4 := s3 + (if pyIsTitle l.text then ⟨3, 2, by decide⟩ else 0)
  let s5 := s4 + (if pyIsUpper l.text then 2 else 0)
  let s6 := s5 + (if wordCount l.text < 10 then 1 else 0)
  let s7 := s6 + (if ends_colon l.text then 2 else 0)
  let s8 := s7 + (if b.lines.length = 1 then 3 else 0)
  s8 + (if line_size < body ∧ is_bold = false then 0 - 3 else 0)

def get_heading_score (l : Line) (b : Block) (body : Frac) (cfg : Config) :
    Frac :=
  if hard_reject l then -10
  else
    match dedupKeep (span_round_sizes l) with
    | [] => -10           -- set().pop() raises KeyError → except → -10
    | [z] => heading_score_accum l b z body cfg
    | _ => -10            -- len(font_sizes) > 1

/-! ## Stage 5b: heading-candidate collection (inside `extract_pdf_outline`) -/

structure Cand where
  line : Line
  page : Nat
deriving DecidableEq

def heading_candidates (d : List Page) (ign : List LineId) (body : Frac)
    (cfg : Config) : List Cand :=
  d.flatMap (fun p => p.blocks.flatMap (fun b => b.lines.filterMap (fun l =>
    if lineId l ∈ ign then none
    else if cfg.min_heading_score ≤ get_heading_score l b body cfg then
      some ⟨l, p.page_num⟩
    else none)))

/-! ## Stage 6: style clustering and level assignment -/

/-- The Style Key `(mode of rounded span sizes, any span bold)`; `none`
models the `StatisticsError` escape. -/
def styleKeyOfLine (l : Line) : Option (Int × Bool) :=
  (pyMode (span_round_sizes l)).map (fun m => (m, line_is_bold l))

/-- `style_properties`: keys in first-insertion order, each with the
`x0` list of the candidates carrying that key. -/
def style_properties (cs : List Cand) : List ((Int × Bool) × List Frac) :=
  (dedupKeep (cs.filterMap (fun c => styleKeyOfLine c.line))).map (fun k =>
    (k, cs.filterMap (fun c =>
      if styleKeyOfLine c.line = some k then some c.line.bbox.x0 else none)))

structure RankedStyle where
  size : Int
  bold : Bool
  x0 : Frac
  style_key : Int × Bool
deriving DecidableEq

/-- `sort(key=lambda x: (-x["size"], x["x0"]))`: strictly earlier when the
size is larger, or sizes equal and the median x0 smaller. -/
def rankLT (a b : RankedStyle) : Bool :=
  decide (b.size < a.size) || (decide (a.size = b.size) && fblt a.x0 b.x0)

def ranked_styles (cs : List Cand) : List RankedStyle :=
  sortAsc rankLT
    ((style_properties cs).map (fun pr =>
      ⟨pr.1.1, pr.1.2, pyMedian pr.2, pr.1⟩))

/-- `f"H{min(i+1, 3)}"`. -/
def levelName (i : Nat) : String := "H" ++ toString (min (i + 1) 3)

/-- `style_to_level`: the first three ranked styles, keyed to H1/H2/H3. -/
def style_to_level (cs : List Cand) : List ((Int × Bool) × String) :=
  ((ranked_styles cs).take 3).enum.map (fun pr => (pr.2.style_key, levelName pr.1))

/-- `style_to_level.get(style_key, "H3")`, with `style_key = None` (the
`StatisticsError` fallback) also defaulting to "H3". -/
def lookupLevel (m : List ((Int × Bool) × String)) (k : Option (Int × Bool)) :
    String :=
  match k with
  | none => "H3"
  | some key => ((m.find? (fun pr => decide (pr.1 = key))).map (fun pr => pr.2)).getD "H3"

/-- The final outline loop. -/
def assign_levels (cs : List Cand) : List OutlineEntry :=
  cs.map (fun c =>
    ⟨lookupLevel (style_to_level cs) (styleKeyOfLine c.line), c.line.text, c.page⟩)

/-! ## Stage 7: the full pipeline `extract_pdf_outline` -/

def extract_pdf_outline (pdf_path : String) (raw : Option (List RawPage))
    (cfg : Config) : ExtractResult :=
  match raw with
  | none =>
    ⟨pyBasename pdf_path, [], some "Could not open or read PDF file."⟩
  | some raws =>
    let d := get_document_structure raws
    if d.any (fun p => p.blocks.any (fun b => !b.lines.isEmpty)) = false then
      ⟨"No Text Found", [], some "No text extracted from the document."⟩
    else
      let body := body_text_size d cfg
      let ign0 := identify_and_filter_content d cfg
      let tl := find_title_by_layout d ign0 cfg
      let ign := ign0 ++ tl.2
      let cands := heading_candidates d ign body cfg
      if cands.isEmpty then ⟨tl.1, [], none⟩
      else ⟨tl.1, assign_levels cands, none⟩

/-- The per-document step of `main`'s batch loop: each input is processed
independently; `extract_pdf_outline` is total, so no document's outcome
can interrupt its siblings. -/
def process_batch (inputs : List (String × Option (List RawPage)))
    (cfg : Config) : List ExtractResult :=
  inputs.map (fun pr => extract_pdf_outline pr.1 pr.2 cfg)

/-! ## Concrete documents used by witnesses and counterexamples -/

def bb (a b c d : Int) : BBox := ⟨Frac.ofInt a, Frac.ofInt b, Frac.ofInt c, Frac.ofInt d⟩

def mkSpan (t : String) (sz : Int) (f : String) : Span := ⟨t, Frac.ofInt sz, f⟩

def titleRawLine : RawLine := ⟨bb 10 5 90 15, [mkSpan "Acme Corp 1" 12 "Helvetica"]⟩

def hdrRawLine (t : String) : RawLine := ⟨bb 10 2 90 10, [mkSpan t 10 "Helvetica"]⟩

def ovRawLine : RawLine := ⟨bb 10 50 90 60, [mkSpan "Overview" 18 "HelveticaBold"]⟩

def bgRawLine : RawLine := ⟨bb 10 50 90 60, [mkSpan "Background" 14 "TimesBold"]⟩

/-- A 4-page document: a title-shaped line "Acme Corp 1" on page 1, a
running header "Acme Corp N" on pages 2–4 (digit-normalising to one key),
and two heading-shaped mid-page lines on pages 2 and 3. -/
def rawDoc3 : List RawPage :=
  [ ⟨100, 100, [⟨0, bb 10 5 90 15, [titleRawLine]⟩]⟩
  , ⟨100, 100, [⟨0, bb 10 2 90 10, [hdrRawLine "Acme Corp 2"]⟩,
                ⟨0, bb 10 50 90 60, [ovRawLine]⟩]⟩
  , ⟨100, 100, [⟨0, bb 10 2 90 10, [hdrRawLine "Acme Corp 3"]⟩,
                ⟨0, bb 10 50 90 60, [bgRawLine]⟩]⟩
  , ⟨100, 100, [⟨0, bb 10 2 90 10, [hdrRawLine "Acme Corp 4"]⟩]⟩ ]

def d3 : List Page := get_document_structure rawDoc3

/-- The normalised Line of page 1 of `rawDoc3`. -/
def titleLine3 : Line := ⟨"Acme Corp 1", bb 10 5 90 15, [mkSpan "Acme Corp 1" 12 "Helvetica"]⟩

/-- The normalised Line of the "Overview" heading of `rawDoc3`. -/
def ovLine : Line := ⟨"Overview", bb 10 50 90 60, [mkSpan "Overview" 18 "HelveticaBold"]⟩

/-- The suppression list of `rawDoc3` after the noise filter and title
detector ran, as assembled inside `extract_pdf_outline`. -/
def ign3 : List LineId :=
  identify_and_filter_content d3 CONFIG ++
    (find_title_by_layout d3 (identify_and_filter_content d3 CONFIG) CONFIG).2

def cands3 : List Cand := heading_candidates d3 ign3 (body_text_size d3 CONFIG) CONFIG

/-! ## Generic list lemmas -/

theorem mem_dedupKeep_aux {α : Type} [DecidableEq α] (l : List α) :
    ∀ (acc : List α) (a : α),
      (a ∈ l.foldl (fun acc x => if x ∈ acc then acc else acc ++ [x]) acc ↔
        a ∈ acc ∨ a ∈ l) := by
  induction l with
  | nil => intro acc a; simp
  | cons x xs ih =>
    intro acc a
    simp only [List.foldl_cons, ih, List.mem_cons]
    by_cases hx : x ∈ acc
    · simp only [if_pos hx]
      constructor
      · rintro (h | h)
        · exact Or.inl h
        · exact Or.inr (Or.inr h)
      · rintro (h | h | h)
        · exact Or.inl h
        · exact Or.inl (h ▸ hx)
        · exact Or.inr h
    · simp only [if_neg hx, List.mem_append, List.mem_singleton]
      tauto

theorem mem_dedupKeep {α : Type} [DecidableEq α] (l : List α) (a : α) :
    a ∈ dedupKeep l ↔ a ∈ l := by
  unfold dedupKeep
  simpa using mem_dedupKeep_aux l [] a

theorem nodup_dedupKeep_aux {α : Type} [DecidableEq α] (l : List α) :
    ∀ (acc : List α), acc.Nodup →
      (l.foldl (fun acc x => if x ∈ acc then acc else acc ++ [x]) acc).Nodup := by
  induction l with
  | nil => intro acc h; simpa using h
  | cons x xs ih =>
    intro acc h
    simp only [List.foldl_cons]
    by_cases hx : x ∈ acc
    · simpa [if_pos hx] using ih acc h
    · refine ih _ ?_
      simp [if_neg hx, List.nodup_append, h, hx]

theorem nodup_dedupKeep {α : Type} [DecidableEq α] (l : List α) :
    (dedupKeep l).Nodup :=
  nodup_dedupKeep_aux l [] List.nodup_nil

theorem eq_of_dedupKeep_singleton {α : Type} [DecidableEq α] {l : List α}
    {z : α} (h : dedupKeep l = [z]) : ∀ x ∈ l, x = z := by
  intro x hx
  have : x ∈ dedupKeep l := (mem_dedupKeep l x).mpr hx
  rw [h] at this
  simpa using this

theorem pyMode_of_dedupKeep_singleton {α : Type} [DecidableEq α] {l : List α}
    {z : α} (h : dedupKeep l = [z]) : pyMode l = some z := by
  unfold pyMode
  rw [h]
  rfl

/-- `(l.flatMap fun x => if p x then f x else [])` only keeps the images of
elements passing `p`. -/
theorem flatMap_ite_eq_filter_flatMap {α β : Type} (p : α → Prop)
    [DecidablePred p] (f : α → List β) (l : List α) :
    (l.flatMap fun x => if p x then f x else []) =
      (l.filter (fun x => decide (p x))).flatMap f := by
  induction l with
  | nil => rfl
  | cons x xs ih =>
    by_cases hx : p x <;>
      simp [List.flatMap_cons, List.filter_cons, hx, ih]

theorem filterMap_sublist_map {α β : Type} (f : α → Option β) (g : α → β)
    (hf : ∀ x, f x = none ∨ f x = some (g x)) (l : List α) :
    List.Sublist (l.filterMap f) (l.map g) := by
  induction l with
  | nil => simp
  | cons x xs ih =>
    rcases hf x with h | h
    · simpa [List.filterMap_cons, h] using ih.cons (g x)
    · simpa [List.filterMap_cons, h] using ih.cons₂ (g x)

theorem flatMap_sublist_flatMap {α β : Type} (f g : α → List β) (l : List α)
    (h : ∀ a ∈ l, List.Sublist (f a) (g a)) :
    List.Sublist (l.flatMap f) (l.flatMap g) := by
  induction l with
  | nil => simp
  | cons x xs ih =>
    simpa [List.flatMap_cons] using
      (h x (by simp)).append (ih (fun a ha => h a (by simp [ha])))

/-! ## Sorting lemmas for `sortAsc` -/

theorem insertAsc_perm {α : Type} (lt : α → α → Bool) (a : α) (l : List α) :
    (insertAsc lt a l).Perm (a :: l) := by
  induction l with
  | nil => exact List.Perm.refl _
  | cons b bs ih =>
    unfold insertAsc
    by_cases h : lt b a
    · simp only [if_pos h]
      exact (ih.cons b).trans (List.Perm.swap a b bs)
    · simp only [if_neg h]
      exact List.Perm.refl _

theorem sortAsc_perm {α : Type} (lt : α → α → Bool) (l : List α) :
    (sortAsc lt l).Perm l := by
  induction l with
  | nil => exact List.Perm.refl _
  | cons x xs ih =>
    exact (insertAsc_perm lt x (sortAsc lt xs)).trans (ih.cons x)

theorem pairwise_insertAsc {α : Type} (lt : α → α → Bool)
    (hasym : ∀ a b, lt a b = true → lt b a = false)
    (hneg : ∀ a b c, lt b a = false → lt c b = false → lt c a = false)
    (a : α) (l : List α) (h : l.Pairwise (fun x y => lt y x = false)) :
    (insertAsc lt a l).Pairwise (fun x y => lt y x = false) := by
  induction l with
  | nil => simp [insertAsc]
  | cons b bs ih =>
    rcases List.pairwise_cons.mp h with ⟨hb, hbs⟩
    unfold insertAsc
    by_cases hba : lt b a
    · simp only [if_pos hba]
      refine List.pairwise_cons.mpr ⟨?_, ih hbs⟩
      intro x hx
      have hx' : x ∈ a :: bs := (insertAsc_perm lt a bs).mem_iff.mp hx
      rcases List.mem_cons.mp hx' with rfl | hx''
      · exact hasym b x hba
      · exact hb x hx''
    · simp only [if_neg hba]
      refine List.pairwise_cons.mpr ⟨?_, h⟩
      intro x hx
      rcases List.mem_cons.mp hx with rfl | hx'
      · exact eq_false_of_ne_true hba
      · exact hneg a b x (eq_false_of_ne_true hba) (hb x hx')

theorem pairwise_sortAsc {α : Type} (lt : α → α → Bool)
    (hasym : ∀ a b, lt a b = true → lt b a = false)
    (hneg : ∀ a b c, lt b a = false → lt c b = false → lt c a = false)
    (l : List α) :
    (sortAsc lt l).Pairwise (fun x y => lt y x = false) := by
  induction l with
  | nil => simp [sortAsc]
  | cons x xs ih => exact pairwise_insertAsc lt hasym hneg x (sortAsc lt xs) ih

/-! ## Max-by-score fold membership -/

theorem maxByScore_mem (c : TitleCand) (cs : List TitleCand) :
    maxByScore c cs ∈ c :: cs := by
  induction cs generalizing c with
  | nil => simp [maxByScore]
  | cons x xs ih =>
    have hstep : maxByScore c (x :: xs) =
        maxByScore (if c.score < x.score then x else c) xs := rfl
    rw [hstep]
    rcases List.mem_cons.mp (ih (if c.score < x.score then x else c)) with h | h
    · rw [h]
      by_cases hc : c.score < x.score
      · simp [hc]
      · simp [hc]
    · exact List.mem_cons.mpr (Or.inr (List.mem_cons.mpr (Or.inr h)))

/-! ## Order facts for `Frac` and the style ranking -/

theorem Frac.le_of_not_lt {a b : Frac} (h : ¬ a < b) : b ≤ a := by
  change ¬ (a.num * b.den < b.num * a.den) at h
  change b.num * a.den ≤ a.num * b.den
  omega

theorem Frac.not_lt_of_le {a b : Frac} (h : a ≤ b) : ¬ b < a := by
  change a.num * b.den ≤ b.num * a.den at h
  change ¬ (b.num * a.den < a.num * b.den)
  omega

theorem Frac.le_trans3 {a b c : Frac} (h1 : a ≤ b) (h2 : b ≤ c) : a ≤ c := by
  have ha := a.dpos
  have hb := b.dpos
  have hc := c.dpos
  change a.num * b.den ≤ b.num * a.den at h1
  change b.num * c.den ≤ c.num * b.den at h2
  change a.num * c.den ≤ c.num * a.den
  have h1' := mul_le_mul_of_nonneg_right h1 (le_of_lt hc)
  have h2' := mul_le_mul_of_nonneg_right h2 (le_of_lt ha)
  have key : a.num * c.den * b.den ≤ c.num * a.den * b.den := by nlinarith
  exact le_of_mul_le_mul_right key hb

theorem Frac.le_refl3 (a : Frac) : a ≤ a := by
  change a.num * a.den ≤ a.num * a.den
  exact le_rfl

theorem Frac.le_of_lt3 {a b : Frac} (h : a < b) : a ≤ b := by
  change a.num * b.den < b.num * a.den at h
  change a.num * b.den ≤ b.num * a.den
  omega

theorem rankLT_irrefl (a : RankedStyle) : rankLT a a = false := by
  simp only [rankLT, Bool.or_eq_false_iff, Bool.and_eq_false_iff,
    decide_eq_false_iff_not, fblt, decide_eq_true_eq]
  exact ⟨lt_irrefl _, Or.inr (Frac.not_lt_of_le (Frac.le_refl3 a.x0))⟩

theorem rankLT_asymm {a b : RankedStyle} (h : rankLT a b = true) :
    rankLT b a = false := by
  simp only [rankLT, Bool.or_eq_true, Bool.and_eq_true, decide_eq_true_eq,
    fblt] at h
  simp only [rankLT, Bool.or_eq_false_iff, Bool.and_eq_false_iff,
    decide_eq_false_iff_not, fblt, decide_eq_true_eq]
  rcases h with h | ⟨heq, hx⟩
  · exact ⟨by omega, Or.inl (by omega)⟩
  · exact ⟨by omega, Or.inr (by simpa using Frac.not_lt_of_le (Frac.le_of_lt3 hx))⟩

theorem rankLT_negtrans {a b c : RankedStyle} (h1 : rankLT b a = false)
    (h2 : rankLT c b = false) : rankLT c a = false := by
  simp only [rankLT, Bool.or_eq_false_iff, Bool.and_eq_false_iff,
    decide_eq_false_iff_not, fblt, decide_eq_true_eq] at h1 h2 ⊢
  obtain ⟨hs1, hx1⟩ := h1
  obtain ⟨hs2, hx2⟩ := h2
  refine ⟨by omega, ?_⟩
  by_cases hca : c.size = a.size
  · have hba : b.size = a.size := by omega
    have hcb : c.size = b.size := by omega
    rcases hx1 with h | h
    · exact absurd hba h
    · rcases hx2 with h' | h'
      · exact absurd hcb h'
      · have hab : a.x0 ≤ b.x0 := Frac.le_of_not_lt (by simpa using h)
        have hbc : b.x0 ≤ c.x0 := Frac.le_of_not_lt (by simpa using h')
        exact Or.inr (by simpa using Frac.not_lt_of_le (Frac.le_trans3 hab hbc))
  · exact Or.inl hca

/-! ## Characterisation of the heading-candidate collection -/

theorem mem_heading_candidates {d : List Page} {ign : List LineId}
    {body : Frac} {cfg : Config} {c : Cand} :
    c ∈ heading_candidates d ign body cfg ↔
      ∃ p ∈ d, ∃ b ∈ p.blocks, ∃ l ∈ b.lines,
        lineId l ∉ ign ∧
        cfg.min_heading_score ≤ get_heading_score l b body cfg ∧
        c = ⟨l, p.page_num⟩ := by
  unfold heading_candidates
  simp only [List.mem_flatMap, List.mem_filterMap]
  constructor
  · rintro ⟨p, hp, b, hb, l, hl, hsome⟩
    by_cases hig : lineId l ∈ ign
    · simp [if_pos hig] at hsome
    · rw [if_neg hig] at hsome
      by_cases hsc : cfg.min_heading_score ≤ get_heading_score l b body cfg
      · rw [if_pos hsc] at hsome
        exact ⟨p, hp, b, hb, l, hl, hig, hsc, (Option.some_inj.mp hsome).symm⟩
      · simp [if_neg hsc] at hsome
  · rintro ⟨p, hp, b, hb, l, hl, hig, hsc, rfl⟩
    exact ⟨p, hp, b, hb, l, hl, by rw [if_neg hig, if_pos hsc]⟩

/-- Every candidate's page tag is the `page_num` of a page of the
document it was collected from. -/
theorem heading_candidates_page_mem {d : List Page} {ign : List LineId}
    {body : Frac} {cfg : Config} {c : Cand}
    (h : c ∈ heading_candidates d ign body cfg) :
    ∃ p ∈ d, c.page = p.page_num := by
  rcases mem_heading_candidates.mp h with ⟨p, hp, _, _, _, _, _, _, rfl⟩
  exact ⟨p, hp, rfl⟩

/-- Candidates never carry a suppressed Line Identity. -/
theorem heading_candidates_not_ignored {d : List Page} {ign : List LineId}
    {body : Frac} {cfg : Config} {c : Cand}
    (h : c ∈ heading_candidates d ign body cfg) : lineId c.line ∉ ign := by
  rcases mem_heading_candidates.mp h with ⟨_, _, _, _, _, _, hig, _, rfl⟩
  exact hig

/-! ## Page-number structure of the normalised document -/

theorem get_document_structure_length (raws : List RawPage) :
    (get_document_structure raws).length = raws.length := by
  simp [get_document_structure]

theorem mem_get_document_structure_page_num {raws : List RawPage} {p : Page}
    (h : p ∈ get_document_structure raws) :
    1 ≤ p.page_num ∧ p.page_num ≤ raws.length := by
  unfold get_document_structure at h
  rcases List.mem_map.mp h with ⟨pr, hpr, rfl⟩
  have := List.mem_enum hpr
  simp only []
  omega

theorem pairwise_fst_lt_enumFrom {α : Type} :
    ∀ (l : List α) (n : Nat),
      (List.enumFrom n l).Pairwise (fun a b => a.1 < b.1) := by
  intro l
  induction l with
  | nil => intro n; simp
  | cons x xs ih =>
    intro n
    refine List.pairwise_cons.mpr ⟨?_, ih (n + 1)⟩
    intro y hy
    have : ∀ (m : Nat) (ys : List α) (z : Nat × α), z ∈ List.enumFrom m ys → m ≤ z.1 := by
      intro m ys
      induction ys generalizing m with
      | nil => intro z hz; simp at hz
      | cons w ws ihw =>
        intro z hz
        rcases List.mem_cons.mp hz with rfl | hz'
        · exact le_refl _
        · exact Nat.le_of_succ_le (ihw (m + 1) z hz')
    have := this (n + 1) xs y hy
    omega

theorem pairwise_page_num (raws : List RawPage) :
    (get_document_structure raws).Pairwise
      (fun p q => p.page_num ≤ q.page_num) := by
  unfold get_document_structure
  rw [List.pairwise_map]
  refine List.Pairwise.imp ?_ (pairwise_fst_lt_enumFrom raws 0)
  intro a b h
  simp only []
  omega

/-! ## Structure of the style ranking and the level table -/

theorem ranked_styles_pairwise (cs : List Cand) :
    (ranked_styles cs).Pairwise (fun a b => rankLT b a = false) :=
  pairwise_sortAsc rankLT (fun _ _ h => rankLT_asymm h)
    (fun _ _ _ h1 h2 => rankLT_negtrans h1 h2) _

theorem ranked_styles_keys_nodup (cs : List Cand) :
    ((ranked_styles cs).map (fun s => s.style_key)).Nodup := by
  have hperm :
      ((ranked_styles cs).map (fun s => s.style_key)).Perm
        (((style_properties cs).map (fun pr =>
          RankedStyle.mk pr.1.1 pr.1.2 (pyMedian pr.2) pr.1)).map
            (fun s => s.style_key)) :=
    (sortAsc_perm rankLT _).map _
  refine hperm.symm.nodup ?_
  have hid : ∀ (l : List (Int × Bool)),
      l.map ((fun (s : RankedStyle) => s.style_key) ∘
        (fun pr => RankedStyle.mk pr.1.1 pr.1.2 (pyMedian pr.2) pr.1) ∘
        (fun k => (k, cs.filterMap (fun c =>
          if styleKeyOfLine c.line = some k then some c.line.bbox.x0
          else none)))) = l := by
    intro l
    induction l with
    | nil => rfl
    | cons x xs ihl => simp [ihl]
  have : ((style_properties cs).map (fun pr =>
      RankedStyle.mk pr.1.1 pr.1.2 (pyMedian pr.2) pr.1)).map
        (fun s => s.style_key) =
      dedupKeep (cs.filterMap (fun c => styleKeyOfLine c.line)) := by
    unfold style_properties
    rw [List.map_map, List.map_map]
    exact hid _
  rw [this]
  exact nodup_dedupKeep _

def levelNat (s : String) : Nat :=
  if s = "H1" then 1 else if s = "H2" then 2 else 3

theorem levelName_cases (i : Nat) :
    levelName i = "H1" ∨ levelName i = "H2" ∨ levelName i = "H3" := by
  match i with
  | 0 => exact Or.inl rfl
  | 1 => exact Or.inr (Or.inl rfl)
  | n + 2 =>
    refine Or.inr (Or.inr ?_)
    unfold levelName
    rw [Nat.min_eq_right (by omega)]
    rfl

theorem find_level_enumFrom :
    ∀ (l : List RankedStyle) (n : Nat),
      ((l.map (fun s => s.style_key)).Nodup) →
      ∀ (i : Nat) (h : i < l.length),
        ((List.enumFrom n l).map
            (fun pr => (pr.2.style_key, levelName pr.1))).find?
          (fun pr => decide (pr.1 = (l.get ⟨i, h⟩).style_key)) =
        some ((l.get ⟨i, h⟩).style_key, levelName (n + i)) := by
  intro l
  induction l with
  | nil => intro n _ i h; exact absurd h (by simp)
  | cons x xs ih =>
    intro n hnodup i h
    match i with
    | 0 =>
      simp only [List.enumFrom, List.map_cons, List.get]
      rw [List.find?_cons_of_pos _ (by simp)]
      simp
    | j + 1 =>
      have hj : j < xs.length := by simpa using h
      have hget : (x :: xs).get ⟨j + 1, h⟩ = xs.get ⟨j, hj⟩ := rfl
      rw [hget]
      simp only [List.enumFrom, List.map_cons]
      rw [List.find?_cons_of_neg]
      · have hrec := ih (n + 1)
          ((List.nodup_cons.mp (by simpa using hnodup)).2) j hj
        rw [hrec, show n + 1 + j = n + (j + 1) from by omega]
      · simp only [decide_eq_true_eq]
        intro heq
        have hx : x.style_key ∉ xs.map (fun s => s.style_key) :=
          (List.nodup_cons.mp (by simpa using hnodup)).1
        refine hx ?_
        rw [heq]
        exact List.mem_map.mpr ⟨xs.get ⟨j, hj⟩, List.get_mem xs j hj, rfl⟩

theorem take3_keys_nodup (cs : List Cand) :
    (((ranked_styles cs).take 3).map (fun s => s.style_key)).Nodup := by
  rw [List.map_take]
  exact ((List.take_sublist _ _).nodup) (ranked_styles_keys_nodup cs)

theorem lookupLevel_some (m : List ((Int × Bool) × String)) (key : Int × Bool) :
    lookupLevel m (some key) =
      ((m.find? (fun pr => decide (pr.1 = key))).map (fun pr => pr.2)).getD "H3" :=
  rfl

theorem lookupLevel_none (m : List ((Int × Bool) × String)) :
    lookupLevel m none = "H3" := rfl

theorem style_to_level_eq (cs : List Cand) :
    style_to_level cs =
      (List.enumFrom 0 ((ranked_styles cs).take 3)).map
        (fun pr => (pr.2.style_key, levelName pr.1)) := rfl

theorem snd_mem_of_mem_enumFrom {α : Type} :
    ∀ {l : List α} {n : Nat} {z : Nat × α}, z ∈ List.enumFrom n l → z.2 ∈ l := by
  intro l
  induction l with
  | nil => intro n z h; simp at h
  | cons x xs ih =>
    intro n z h
    rcases List.mem_cons.mp h with rfl | h'
    · simp
    · exact List.mem_cons.mpr (Or.inr (ih h'))

theorem lookupLevel_ranked_lt3 (cs : List Cand) (i : Nat)
    (h : i < (ranked_styles cs).length) (h3 : i < 3) :
    lookupLevel (style_to_level cs)
      (some (((ranked_styles cs).get ⟨i, h⟩).style_key)) = levelName i := by
  have hlen : i < ((ranked_styles cs).take 3).length := by
    rw [List.length_take]
    omega
  have hget : ((ranked_styles cs).take 3).get ⟨i, hlen⟩ =
      (ranked_styles cs).get ⟨i, h⟩ := (List.get_take _ h h3).symm
  have hfind := find_level_enumFrom ((ranked_styles cs).take 3) 0
    (take3_keys_nodup cs) i hlen
  rw [hget] at hfind
  rw [lookupLevel_some, style_to_level_eq, hfind]
  simp

theorem lookupLevel_not_in_take3 (cs : List Cand) (key : Int × Bool)
    (h : key ∉ ((ranked_styles cs).take 3).map (fun s => s.style_key)) :
    lookupLevel (style_to_level cs) (some key) = "H3" := by
  rw [lookupLevel_some, List.find?_eq_none.mpr]
  · rfl
  · intro pr hpr
    simp only [decide_eq_true_eq]
    rw [style_to_level_eq] at hpr
    rcases List.mem_map.mp hpr with ⟨en, hen, rfl⟩
    intro heq
    refine h ?_
    rw [← heq]
    exact List.mem_map.mpr ⟨en.2, snd_mem_of_mem_enumFrom hen, rfl⟩

theorem lookupLevel_ranked_ge3 (cs : List Cand) (i : Nat)
    (h : i < (ranked_styles cs).length) (h3 : 3 ≤ i) :
    lookupLevel (style_to_level cs)
      (some (((ranked_styles cs).get ⟨i, h⟩).style_key)) = "H3" := by
  refine lookupLevel_not_in_take3 cs _ ?_
  intro hmem
  rcases List.mem_map.mp hmem with ⟨s, hs, hkey⟩
  rcases List.mem_iff_get.mp hs with ⟨⟨j, hj⟩, rfl⟩
  have hjlen : j < (ranked_styles cs).length := by
    have := hj
    rw [List.length_take] at this
    omega
  have hj3 : j < 3 := by
    have := hj
    rw [List.length_take] at this
    omega
  have hgetj : ((ranked_styles cs).take 3).get ⟨j, hj⟩ =
      (ranked_styles cs).get ⟨j, hjlen⟩ := (List.get_take _ hjlen hj3).symm
  rw [hgetj] at hkey
  have hnodup := ranked_styles_keys_nodup cs
  have hij : (⟨j, by simpa using hjlen⟩ :
      Fin ((ranked_styles cs).map (fun s => s.style_key)).length) =
      ⟨i, by simpa using h⟩ := by
    refine hnodup.get_inj_iff.mp ?_
    rw [List.get_map, List.get_map]
    exact hkey
  have : j = i := by simpa using congrArg Fin.val hij
  omega

theorem levelNat_levelName (i : Nat) (h : i < 3) :
    levelNat (levelName i) = i + 1 := by
  match i, h with
  | 0, _ => rfl
  | 1, _ => rfl
  | 2, _ => rfl

theorem levelNat_lookup_ranked (cs : List Cand) (i : Nat)
    (h : i < (ranked_styles cs).length) :
    levelNat (lookupLevel (style_to_level cs)
      (some (((ranked_styles cs).get ⟨i, h⟩).style_key))) = min (i + 1) 3 := by
  rcases Nat.lt_or_ge i 3 with h3 | h3
  · rw [lookupLevel_ranked_lt3 cs i h h3, levelNat_levelName i h3]
    omega
  · rw [lookupLevel_ranked_ge3 cs i h h3]
    have : levelNat "H3" = 3 := rfl
    rw [this]
    omega

theorem lookupLevel_mem_levels (cs : List Cand) (k : Option (Int × Bool)) :
    lookupLevel (style_to_level cs) k = "H1" ∨
    lookupLevel (style_to_level cs) k = "H2" ∨
    lookupLevel (style_to_level cs) k = "H3" := by
  match k with
  | none => exact Or.inr (Or.inr (lookupLevel_none _))
  | some key =>
    rw [lookupLevel_some]
    cases hf : (style_to_level cs).find? (fun pr => decide (pr.1 = key)) with
    | none => exact Or.inr (Or.inr rfl)
    | some pr =>
      have hmem := List.mem_of_find?_eq_some hf
      rw [style_to_level_eq] at hmem
      rcases List.mem_map.mp hmem with ⟨en, _, rfl⟩
      simpa using levelName_cases en.1

/-! ## Remaining concrete fixtures -/

/-- A small, non-bold prose-like line: size 2 against body size 10, two
words, no rejection pattern. -/
def cxLine : Line := ⟨"zzzz qqqq", bb 0 0 50 10, [mkSpan "zzzz qqqq" 2 "Helvetica"]⟩

def cxOther : Line :=
  ⟨"another body line", bb 0 10 50 20, [mkSpan "another body line" 10 "Helvetica"]⟩

/-- A two-line block, so the sole-line bonus does not apply to `cxLine`. -/
def cxBlock : Block := ⟨bb 0 0 50 20, [cxLine, cxOther]⟩

/-- A line ending in a period, triggering the hard-rejection group. -/
def rejLine : Line := ⟨"Ends here.", bb 0 0 50 10, [mkSpan "Ends here." 12 "Helvetica"]⟩

def ovBlock : Block := ⟨bb 10 50 90 60, [ovLine]⟩

def hdrLine2 : Line := ⟨"Acme Corp 2", bb 10 2 90 10, [mkSpan "Acme Corp 2" 10 "Helvetica"]⟩

/-! ## Claim C2 -/

/-- C2, as stated, is false: the claim's "if and only if" fails in the
only-if direction.  On `cxLine` (size 2 versus body size 10, not bold, two
words) the accumulation path also yields exactly −10
(−8 size penalty + 1 short-text bonus − 3 small-non-bold penalty), yet no
hard-rejection condition holds. -/
theorem C2_score_counterexample :
    Frac.eqv (get_heading_score cxLine cxBlock 10 CONFIG) (-10) ∧
    hard_reject cxLine = false ∧ sizes_disagree cxLine = false := by decide

/-- C2 (amended): if any hard-rejection condition holds — bullet/backtick
start, URL-like content, more than 15 words, terminal `.`/`,` (all in
`hard_reject`), or disagreeing rounded span sizes — then the heading score
is −10 with no bonus/penalty accumulation.  The converse direction of the
original claim is dropped: accumulation can also reach exactly −10
(`C2_score_counterexample`). -/
theorem C2_hard_rejection (l : Line) (b : Block) (body : Frac) (cfg : Config)
    (h : hard_reject l = true ∨ sizes_disagree l = true) :
    get_heading_score l b body cfg = -10 := by
  unfold get_heading_score
  rcases h with h | h
  · rw [if_pos h]
  · by_cases hr : hard_reject l
    · rw [if_pos hr]
    · rw [if_neg hr]
      have h' : 1 < (dedupKeep (span_round_sizes l)).length := of_decide_eq_true h
      cases hd : dedupKeep (span_round_sizes l) with
      | nil => rfl
      | cons z zs =>
        cases zs with
        | nil =>
          rw [hd] at h'
          exact absurd h' (by simp)
        | cons w t => rfl

theorem C2_hard_rejection_witness :
    get_heading_score rejLine cxBlock 10 CONFIG = -10 :=
  C2_hard_rejection rejLine cxBlock 10 CONFIG (Or.inl (by decide))

/-! ## Claim C5 -/

/-- The size multiset of §4.4 as the spec words it: rounded span sizes of
every Line with more than `min_body_text_words` words and no bold span. -/
def spec_body_sizes (d : List Page) (cfg : Config) : List Int :=
  d.flatMap (fun p => p.blocks.flatMap (fun b =>
    (b.lines.filter (fun l =>
      decide (cfg.min_body_text_words < wordCount l.text ∧
        ¬ l.spans.any (fun sp => isBoldFont sp.font)))).flatMap span_round_sizes))

/-- C5: the body-text baseline is the median of the rounded span sizes
collected from every Line with more than `min_body_text_words` words
(default 6) and no bold span, and the fixed fallback 10 when that
collection is empty. -/
theorem C5_body_baseline (d : List Page) (cfg : Config) :
    body_text_size d cfg =
      if spec_body_sizes d cfg = [] then (10 : Frac)
      else pyMedian ((spec_body_sizes d cfg).map Frac.ofInt) := by
  have heq : body_font_sizes d cfg = spec_body_sizes d cfg := by
    unfold body_font_sizes spec_body_sizes
    refine congrArg _ (funext fun p => congrArg _ (funext fun b => ?_))
    exact flatMap_ite_eq_filter_flatMap _ _ _
  unfold body_text_size
  rw [heq]
  cases hs : spec_body_sizes d cfg with
  | nil => simp
  | cons z zs => simp

/-! ## Claim C6 -/

/-- C6: an unopenable input (`fitz.open` fails, modelled as `raw = none`)
still produces a per-document result: the basename of the path as a
best-effort title, an empty outline, and a populated `error` field; and in
batch mode every sibling document is still processed to its own result. -/
theorem C6_unopenable_recovery :
    (∀ (path : String) (cfg : Config),
      extract_pdf_outline path none cfg =
        ⟨pyBasename path, [], some "Could not open or read PDF file."⟩) ∧
    (∀ (pre post : List (String × Option (List RawPage))) (name : String)
        (cfg : Config),
      process_batch (pre ++ (name, none) :: post) cfg =
        process_batch pre cfg ++
          ⟨pyBasename name, [], some "Could not open or read PDF file."⟩ ::
            process_batch post cfg) := by
  constructor
  · intro path cfg
    rfl
  · intro pre post name cfg
    unfold process_batch
    rw [List.map_append, List.map_cons]
    rfl

/-! ## Claim C7 -/

/-- C7: when the Document Structure has no Lines at all, the pipeline
returns the fixed "no text" result — outline empty, `error` set — before
any later stage runs. -/
theorem C7_no_text_short_circuit (path : String) (raws : List RawPage)
    (cfg : Config)
    (h : ∀ p ∈ get_document_structure raws, ∀ b ∈ p.blocks, b.lines = []) :
    extract_pdf_outline path (some raws) cfg =
      ⟨"No Text Found", [], some "No text extracted from the document."⟩ := by
  have hany : (get_document_structure raws).any
      (fun p => p.blocks.any (fun b => !b.lines.isEmpty)) = false := by
    rw [List.any_eq_false]
    intro p hp
    rw [Bool.not_eq_true, List.any_eq_false]
    intro b hb
    rw [Bool.not_eq_true, h p hp b hb]
    rfl
  simp only [extract_pdf_outline]
  rw [if_pos hany]

theorem C7_no_text_witness :
    extract_pdf_outline "scan.pdf" (some []) CONFIG =
      ⟨"No Text Found", [], some "No text extracted from the document."⟩ :=
  C7_no_text_short_circuit "scan.pdf" [] CONFIG
    (fun p hp => absurd hp (by simp [get_document_structure]))

/-! ## Claim C10 -/

/-- C10: any Line scoring at or above a threshold that exceeds −10 (the
default is 3.0) has all rounded span sizes equal, so the mode over them is
defined and equal to that unique size and the Style Key is never the
`StatisticsError` fallback `none`. -/
theorem C10_style_key_defined (l : Line) (b : Block) (body : Frac)
    (cfg : Config) (hmin : (-10 : Frac) < cfg.min_heading_score)
    (hsc : cfg.min_heading_score ≤ get_heading_score l b body cfg) :
    ∃ z : Int, (∀ x ∈ span_round_sizes l, x = z) ∧
      pyMode (span_round_sizes l) = some z ∧
      styleKeyOfLine l = some (z, line_is_bold l) := by
  unfold get_heading_score at hsc
  by_cases hr : hard_reject l
  · rw [if_pos hr] at hsc
    exact absurd hmin (Frac.not_lt_of_le hsc)
  · rw [if_neg hr] at hsc
    cases hd : dedupKeep (span_round_sizes l) with
    | nil =>
      rw [hd] at hsc
      exact absurd hmin (Frac.not_lt_of_le hsc)
    | cons z zs =>
      cases zs with
      | nil =>
        refine ⟨z, eq_of_dedupKeep_singleton hd, pyMode_of_dedupKeep_singleton hd, ?_⟩
        unfold styleKeyOfLine
        rw [pyMode_of_dedupKeep_singleton hd]
        rfl
      | cons w t =>
        rw [hd] at hsc
        exact absurd hmin (Frac.not_lt_of_le hsc)

theorem C10_style_key_defined_witness :
    ∃ z : Int, (∀ x ∈ span_round_sizes ovLine, x = z) ∧
      pyMode (span_round_sizes ovLine) = some z ∧
      styleKeyOfLine ovLine = some (z, line_is_bold ovLine) :=
  C10_style_key_defined ovLine ovBlock 10 CONFIG (by decide) (by decide)

/-! ## Title-detector helper facts -/

theorem string_length_pos_of_ne {s : String} (h : s ≠ "") : 0 < s.length := by
  cases s with
  | mk data =>
    cases data with
    | nil => exact absurd rfl h
    | cons c cs => simp [String.length]

theorem title_candidates_text_ne (d : List Page) (ign : List LineId)
    (cfg : Config) (tc : TitleCand) (h : tc ∈ title_candidates d ign cfg) :
    tc.text ≠ "" := by
  unfold title_candidates at h
  rcases List.mem_flatMap.mp h with ⟨p, _, hmem⟩
  rcases List.mem_filterMap.mp hmem with ⟨b, _, hsome⟩
  by_cases h1 : b.lines.any (fun l => decide (lineId l ∈ ign))
  · rw [if_pos h1] at hsome
    exact absurd hsome (by simp)
  · rw [if_neg h1] at hsome
    by_cases h2 : ¬ (1 ≤ b.lines.length ∧ b.lines.length ≤ 4) ∨
        b.bbox.y0 > p.page_height * ⟨2, 5, by decide⟩
    · rw [if_pos h2] at hsome
      exact absurd hsome (by simp)
    · rw [if_neg h2] at hsome
      by_cases h3 : String.intercalate " " (b.lines.map (fun l => l.text)) = ""
      · rw [if_pos h3] at hsome
        exact absurd hsome (by simp)
      · rw [if_neg h3] at hsome
        have := Option.some_inj.mp hsome
        rw [← this]
        exact h3

theorem find_title_fst_pos (d : List Page) (ign : List LineId) (cfg : Config) :
    0 < (find_title_by_layout d ign cfg).1.length := by
  unfold find_title_by_layout
  cases hc : title_candidates d ign cfg with
  | nil => decide
  | cons c cs =>
    have hmem : maxByScore c cs ∈ title_candidates d ign cfg := by
      rw [hc]
      exact maxByScore_mem c cs
    exact string_length_pos_of_ne
      (title_candidates_text_ne d ign cfg _ hmem)

/-! ## Claim C3 -/

/-- C3: a Line occurrence becomes a Heading Candidate, tagged with its
page's 1-based number, exactly when its Line Identity is outside the
Suppression Set and its heading score reaches `min_heading_score`; and the
candidate list is a sublist of the full document-order line traversal, so
candidates stay in document order. -/
theorem C3_candidate_iff (d : List Page) (ign : List LineId) (body : Frac)
    (cfg : Config) :
    (∀ c : Cand,
       c ∈ heading_candidates d ign body cfg ↔
         ∃ p ∈ d, ∃ b ∈ p.blocks, ∃ l ∈ b.lines,
           lineId l ∉ ign ∧
           cfg.min_heading_score ≤ get_heading_score l b body cfg ∧
           c = ⟨l, p.page_num⟩) ∧
    List.Sublist (heading_candidates d ign body cfg)
      (d.flatMap (fun p => p.blocks.flatMap (fun b =>
        b.lines.map (fun l => ⟨l, p.page_num⟩)))) := by
  refine ⟨fun c => mem_heading_candidates, ?_⟩
  unfold heading_candidates
  refine flatMap_sublist_flatMap _ _ _ (fun p _ => ?_)
  refine flatMap_sublist_flatMap _ _ _ (fun b _ => ?_)
  refine filterMap_sublist_map _ _ (fun l => ?_) _
  by_cases h1 : lineId l ∈ ign
  · exact Or.inl (by rw [if_pos h1])
  · by_cases h2 : cfg.min_heading_score ≤ get_heading_score l b body cfg
    · exact Or.inr (by rw [if_neg h1, if_pos h2])
    · exact Or.inl (by rw [if_neg h1, if_neg h2])

theorem C3_candidate_iff_witness :
    ∃ p ∈ d3, ∃ b ∈ p.blocks, ∃ l ∈ b.lines,
      lineId l ∉ ign3 ∧
      CONFIG.min_heading_score ≤
        get_heading_score l b (body_text_size d3 CONFIG) CONFIG ∧
      (⟨ovLine, 2⟩ : Cand) = ⟨l, p.page_num⟩ :=
  ((C3_candidate_iff d3 ign3 (body_text_size d3 CONFIG) CONFIG).1
    ⟨ovLine, 2⟩).mp (by decide)

/-! ## Claim C8 -/

/-- C8: the produced title is always non-empty — via the best layout
candidate's (non-empty) joined text, the "Untitled Document" placeholder,
the "No Text Found" marker, or the file's basename (non-empty for every
path `main` ever passes, since those end in ".pdf") — and when no title
candidate exists the detector returns the fixed placeholder with an empty
suppression contribution, so no Lines are suppressed for title reasons. -/
theorem C8_title_nonempty :
    (∀ (path : String) (raw : Option (List RawPage)) (cfg : Config),
        0 < (pyBasename path).length →
        0 < (extract_pdf_outline path raw cfg).title.length) ∧
    (∀ (d : List Page) (ign : List LineId) (cfg : Config),
        title_candidates d ign cfg = [] →
        find_title_by_layout d ign cfg = ("Untitled Document", [])) := by
  constructor
  · intro path raw cfg hb
    match raw with
    | none => exact hb
    | some raws =>
      simp only [extract_pdf_outline]
      split
      · decide
      · split
        · exact find_title_fst_pos _ _ _
        · exact find_title_fst_pos _ _ _
  · intro d ign cfg h
    unfold find_title_by_layout
    rw [h]

theorem C8_title_nonempty_witness :
    0 < (extract_pdf_outline "input/report.pdf" none CONFIG).title.length :=
  C8_title_nonempty.1 "input/report.pdf" none CONFIG (by decide)

/-! ## Claim C1 -/

/-- C1, as stated, is false on the code: in `rawDoc3` the digit-normalised
key of the page-1 line "Acme Corp 1" occurs on all four pages (more than
2), and the header instances on pages 2–4 make it a noise key, yet the
page-1 occurrence is *not* added to the Suppression Set (the loop only
suppresses on pages where the key was tallied in the header/footer band,
which excludes page 1) and that very line is returned as the `title`. -/
theorem C1_counterexample :
    ((get_document_structure rawDoc3).any (fun p =>
        decide (p.page_num = 1) &&
          p.blocks.any (fun b => decide (titleLine3 ∈ b.lines)))) = true ∧
    2 < ((get_document_structure rawDoc3).filter (fun p =>
        p.blocks.any (fun b => b.lines.any (fun l =>
          decide (normDigits l.text = normDigits titleLine3.text))))).length ∧
    is_noise_key (get_document_structure rawDoc3) CONFIG
      (normDigits titleLine3.text) ∧
    decide (lineId titleLine3 ∈
      identify_and_filter_content (get_document_structure rawDoc3) CONFIG) =
        false ∧
    (extract_pdf_outline "input/doc.pdf" (some rawDoc3) CONFIG).title =
      titleLine3.text := by decide

/-- C1 (amended): a Line matching a noise key is suppressed on every page
on which that key was tallied in the header/footer band (necessarily pages
after the first), and no suppressed Line Identity ever becomes a Heading
Candidate — hence never an Outline Entry.  Occurrences of the same
normalised text on other pages (page 1 in particular) are not suppressed
and may still become the title or an outline entry. -/
theorem C1_noise_suppression :
    (∀ (d : List Page) (cfg : Config) (key : String) (p : Page) (b : Block)
        (l : Line),
        p ∈ d → b ∈ p.blocks → l ∈ b.lines → normDigits l.text = key →
        is_noise_key d cfg key → p.page_num ∈ pages_of_key d cfg key →
        lineId l ∈ identify_and_filter_content d cfg) ∧
    (∀ (d : List Page) (cfg : Config) (ts : List LineId) (body : Frac)
        (c : Cand),
        c ∈ heading_candidates d
          (identify_and_filter_content d cfg ++ ts) body cfg →
        lineId c.line ∉ identify_and_filter_content d cfg) := by
  constructor
  · intro d cfg key p b l hp hb hl hnorm hnoise hpage
    unfold identify_and_filter_content
    refine List.mem_flatMap.mpr ⟨key, ?_, ?_⟩
    · refine (mem_dedupKeep _ _).mpr ?_
      rcases List.mem_filterMap.mp hpage with ⟨pr, hpr, hif⟩
      by_cases hk : pr.1 = key
      · exact List.mem_map.mpr ⟨pr, hpr, hk⟩
      · rw [if_neg hk] at hif
        exact absurd hif (by simp)
    · rw [if_pos hnoise]
      refine List.mem_flatMap.mpr ⟨p, hp, ?_⟩
      rw [if_pos hpage]
      refine List.mem_flatMap.mpr ⟨b, hb, ?_⟩
      exact List.mem_filterMap.mpr ⟨l, hl, by rw [if_pos hnorm]⟩
  · intro d cfg ts body c hc
    have hn := heading_candidates_not_ignored hc
    intro hmem
    exact hn (List.mem_append.mpr (Or.inl hmem))

def hdrBlock2 : Block := ⟨bb 10 2 90 10, [hdrLine2]⟩

def page2d3 : Page := ⟨2, 100, 100, [hdrBlock2, ovBlock]⟩

theorem C1_noise_suppression_witness :
    lineId hdrLine2 ∈ identify_and_filter_content d3 CONFIG ∧
    decide (lineId ovLine ∈ identify_and_filter_content d3 CONFIG) = false := by
  constructor
  · exact C1_noise_suppression.1 d3 CONFIG (normDigits hdrLine2.text) page2d3
      hdrBlock2 hdrLine2 (by decide) (by decide) (by decide) rfl (by decide)
      (by decide)
  · rw [decide_eq_false_iff_not]
    exact C1_noise_suppression.2 d3 CONFIG
      (find_title_by_layout d3 (identify_and_filter_content d3 CONFIG) CONFIG).2
      (body_text_size d3 CONFIG) ⟨ovLine, 2⟩ (by decide)

/-! ## Shape of the produced outline -/

theorem extract_outline_spec (path : String) (raws : List RawPage)
    (cfg : Config) :
    (extract_pdf_outline path (some raws) cfg).outline = [] ∨
    (extract_pdf_outline path (some raws) cfg).outline =
      assign_levels (heading_candidates (get_document_structure raws)
        (identify_and_filter_content (get_document_structure raws) cfg ++
          (find_title_by_layout (get_document_structure raws)
            (identify_and_filter_content (get_document_structure raws) cfg)
              cfg).2)
        (body_text_size (get_document_structure raws) cfg) cfg) := by
  simp only [extract_pdf_outline]
  split
  · exact Or.inl rfl
  · split
    · exact Or.inl rfl
    · exact Or.inr rfl

theorem assign_levels_pages (cs : List Cand) :
    (assign_levels cs).map (fun e => e.page) = cs.map (fun c => c.page) := by
  simp [assign_levels, List.map_map]

theorem mem_page_block_cands {p : Page} {ign : List LineId} {body : Frac}
    {cfg : Config} {x : Cand}
    (h : x ∈ p.blocks.flatMap (fun b => b.lines.filterMap (fun l =>
      if lineId l ∈ ign then none
      else if cfg.min_heading_score ≤ get_heading_score l b body cfg then
        some ⟨l, p.page_num⟩
      else none))) : x.page = p.page_num := by
  rcases List.mem_flatMap.mp h with ⟨b, _, hmem⟩
  rcases List.mem_filterMap.mp hmem with ⟨l, _, hsome⟩
  by_cases h1 : lineId l ∈ ign
  · rw [if_pos h1] at hsome
    exact absurd hsome (by simp)
  · rw [if_neg h1] at hsome
    by_cases h2 : cfg.min_heading_score ≤ get_heading_score l b body cfg
    · rw [if_pos h2] at hsome
      rw [← Option.some_inj.mp hsome]
    · rw [if_neg h2] at hsome
      exact absurd hsome (by simp)

theorem pairwise_candidate_pages (d : List Page) (ign : List LineId)
    (body : Frac) (cfg : Config)
    (hd : d.Pairwise (fun p q => p.page_num ≤ q.page_num)) :
    ((heading_candidates d ign body cfg).map (fun c => c.page)).Pairwise
      (fun a b => a ≤ b) := by
  induction d with
  | nil => simp [heading_candidates]
  | cons p ps ih =>
    rcases List.pairwise_cons.mp hd with ⟨hp, hps⟩
    have hcons : heading_candidates (p :: ps) ign body cfg =
        (p.blocks.flatMap (fun b => b.lines.filterMap (fun l =>
          if lineId l ∈ ign then none
          else if cfg.min_heading_score ≤ get_heading_score l b body cfg then
            some ⟨l, p.page_num⟩
          else none))) ++ heading_candidates ps ign body cfg := by
      simp [heading_candidates]
    rw [hcons, List.map_append, List.pairwise_append]
    refine ⟨?_, ih hps, ?_⟩
    · refine List.pairwise_of_forall_mem_list ?_
      intro a ha b hb
      rcases List.mem_map.mp ha with ⟨ca, hca, rfl⟩
      rcases List.mem_map.mp hb with ⟨cb, hcb, rfl⟩
      rw [mem_page_block_cands hca, mem_page_block_cands hcb]
    · intro a ha b hb
      rcases List.mem_map.mp ha with ⟨ca, hca, rfl⟩
      rcases List.mem_map.mp hb with ⟨cb, hcb, rfl⟩
      rw [mem_page_block_cands hca]
      rcases heading_candidates_page_mem hcb with ⟨q, hq, hqpage⟩
      rw [hqpage]
      exact hp q hq

/-! ## Claim C9 -/

/-- C9: every Outline Entry's `page` lies in `[1, page_count]` and the
`page` sequence is non-decreasing across the outline in emission order. -/
theorem C9_page_bounds (path : String) (raws : List RawPage) (cfg : Config) :
    (∀ e ∈ (extract_pdf_outline path (some raws) cfg).outline,
        1 ≤ e.page ∧ e.page ≤ (get_document_structure raws).length) ∧
    ((extract_pdf_outline path (some raws) cfg).outline.map
        (fun e => e.page)).Pairwise (fun a b => a ≤ b) := by
  rcases extract_outline_spec path raws cfg with h | h
  · rw [h]
    exact ⟨by simp, by simp⟩
  · rw [h]
    constructor
    · intro e he
      rcases List.mem_map.mp he with ⟨c, hc, rfl⟩
      rcases heading_candidates_page_mem hc with ⟨p, hp, hpage⟩
      have hb := mem_get_document_structure_page_num hp
      rw [get_document_structure_length]
      show 1 ≤ c.page ∧ c.page ≤ raws.length
      rw [hpage]
      exact hb
    · rw [assign_levels_pages]
      exact pairwise_candidate_pages _ _ _ _ (pairwise_page_num raws)

theorem C9_page_bounds_witness :
    1 ≤ (OutlineEntry.mk "H1" "Overview" 2).page ∧
    (OutlineEntry.mk "H1" "Overview" 2).page ≤
      (get_document_structure rawDoc3).length :=
  (C9_page_bounds "input/doc.pdf" rawDoc3 CONFIG).1 ⟨"H1", "Overview", 2⟩
    (by decide)

/-! ## Claim C4 -/

/-- C4: every produced Outline Entry's level is H1/H2/H3; the style
clusters are ranked by descending font size with ties broken by ascending
median `x0` (the ranked list is sorted for that order); the cluster at
rank `i < 3` is assigned level `H(i+1)`; a Candidate whose Style Key is
not among the top 3 ranked clusters (or whose Style Key is the
`StatisticsError` fallback) gets H3; equal Style Keys always get equal
levels; and a cluster ranked strictly above another never gets a
numerically higher level. -/
theorem C4_level_assignment :
    (∀ (path : String) (raw : Option (List RawPage)) (cfg : Config),
       ∀ e ∈ (extract_pdf_outline path raw cfg).outline,
         e.level = "H1" ∨ e.level = "H2" ∨ e.level = "H3") ∧
    (∀ cs : List Cand,
       (ranked_styles cs).Pairwise (fun a b => rankLT b a = false)) ∧
    (∀ (cs : List Cand) (i : Nat) (h : i < (ranked_styles cs).length),
       i < 3 →
       lookupLevel (style_to_level cs)
         (some (((ranked_styles cs).get ⟨i, h⟩).style_key)) = levelName i) ∧
    (∀ (cs : List Cand) (c : Cand), c ∈ cs →
       (∀ s ∈ (ranked_styles cs).take 3,
          some s.style_key ≠ styleKeyOfLine c.line) →
       lookupLevel (style_to_level cs) (styleKeyOfLine c.line) = "H3") ∧
    (∀ (cs : List Cand) (c1 c2 : Cand), c1 ∈ cs → c2 ∈ cs →
       styleKeyOfLine c1.line = styleKeyOfLine c2.line →
       lookupLevel (style_to_level cs) (styleKeyOfLine c1.line) =
         lookupLevel (style_to_level cs) (styleKeyOfLine c2.line)) ∧
    (∀ (cs : List Cand) (s1 s2 : RankedStyle),
       s1 ∈ ranked_styles cs → s2 ∈ ranked_styles cs → rankLT s1 s2 = true →
       levelNat (lookupLevel (style_to_level cs) (some s1.style_key)) ≤
         levelNat (lookupLevel (style_to_level cs) (some s2.style_key))) := by
  refine ⟨?_, fun cs => ranked_styles_pairwise cs, lookupLevel_ranked_lt3,
    ?_, ?_, ?_⟩
  · intro path raw cfg e he
    match raw with
    | none => exact absurd he (by simp [extract_pdf_outline])
    | some raws =>
      rcases extract_outline_spec path raws cfg with h | h
      · rw [h] at he
        exact absurd he (by simp)
      · rw [h] at he
        rcases List.mem_map.mp he with ⟨c, _, rfl⟩
        exact lookupLevel_mem_levels _ _
  · intro cs c _ hne
    cases hk : styleKeyOfLine c.line with
    | none => exact lookupLevel_none _
    | some key =>
      refine lookupLevel_not_in_take3 cs key ?_
      intro hmem
      rcases List.mem_map.mp hmem with ⟨s, hs, hkey⟩
      exact hne s hs (by rw [hk, hkey])
  · intro cs c1 c2 _ _ h
    exact congrArg _ h
  · intro cs s1 s2 hs1 hs2 hlt
    rcases List.mem_iff_get.mp hs1 with ⟨⟨i, hi⟩, rfl⟩
    rcases List.mem_iff_get.mp hs2 with ⟨⟨j, hj⟩, rfl⟩
    have hpw := ranked_styles_pairwise cs
    have hij : i < j := by
      rcases Nat.lt_trichotomy i j with h | h | h
      · exact h
      · exfalso
        subst h
        have h2 : rankLT ((ranked_styles cs).get ⟨i, hi⟩)
            ((ranked_styles cs).get ⟨i, hi⟩) = true := hlt
        rw [rankLT_irrefl] at h2
        exact absurd h2 (by simp)
      · exfalso
        have hfalse := List.pairwise_iff_get.mp hpw ⟨j, hj⟩ ⟨i, hi⟩ h
        rw [hfalse] at hlt
        exact absurd hlt (by simp)
    rw [levelNat_lookup_ranked cs i hi, levelNat_lookup_ranked cs j hj]
    omega

theorem C4_level_assignment_witness :
    levelNat (lookupLevel (style_to_level cands3) (some (18, true))) ≤
      levelNat (lookupLevel (style_to_level cands3) (some (14, true))) :=
  C4_level_assignment.2.2.2.2.2 cands3
    ⟨18, true, Frac.ofInt 10, (18, true)⟩
    ⟨14, true, Frac.ofInt 10, (14, true)⟩
    (by decide) (by decide) (by decide)
